import Mathlib

/-!
A shallow embedding of `cleanup_v1_calendar.py`: a one-time cleanup job that
deletes legacy PERM-Tracker events from users' Google calendars.  External
collaborators (the Fernet decryptor, the ISO timestamp parser, the provider's
search/delete/refresh operations, the persistence query) are passed in as
function parameters; everything else is translated directly from the source.
-/

namespace Cleanup

/-- A calendar entry as projected by `find_perm_events`: provider-assigned
identity, display text, and a start marker. -/
structure Event where
  id : String
  summary : String
  start : Option String
deriving DecidableEq, Repr

/-- The module-level `EVENT_PATTERNS` list from the source, in order. -/
def EVENT_PATTERNS : List String :=
  [ "PWD Expiration:",
    "ETA 9089 Filing:",
    "ETA 9089 Expiration:",
    "Ready to File:",
    "Recruitment Expires:",
    "I-140 Deadline:",
    "RFI Response Due:",
    "RFE Response Due:" ]

/-- Python's `s.startswith(p)`: exact, case-sensitive character-prefix test. -/
def strStartsWith (s p : String) : Bool :=
  List.isPrefixOf p.data s.data

/-- The filter condition `any(summary.startswith(p) for p in EVENT_PATTERNS)`
from `find_perm_events`. -/
def matchesPattern (summary : String) : Bool :=
  EVENT_PATTERNS.any (fun p => strStartsWith summary p)

/-- The inner body of `find_perm_events`' event loop: starting from the
accumulated `events_found`, append each raw event whose summary matches a
pattern and whose id is not already present (`if not any(e['id'] == event['id']
for e in events_found)`). -/
def processEvents (found : List Event) (events : List Event) : List Event :=
  events.foldl
    (fun acc ev =>
      if matchesPattern ev.summary then
        if acc.any (fun e => e.id == ev.id) then acc else acc ++ [ev]
      else acc)
    found

/-- Result of one pattern search (all pages concatenated): a list of raw
events, or the message of the exception the provider raised. -/
def okResult : Except String (List Event) → List Event
  | .ok l => l
  | .error _ => []

/-- The pattern loop of `find_perm_events`.  The `try` in the source wraps the
whole loop, so the first search that raises ends the loop: the events found so
far are kept and the remaining patterns are never searched.  Returns the
accumulated events together with the list of patterns whose search was
issued. -/
def findLoop (search : String → Except String (List Event)) :
    List String → List Event → List String → List Event × List String
  | [], found, searched => (found, searched)
  | p :: ps, found, searched =>
    match search p with
    | .error _ => (found, searched ++ [p])
    | .ok evs => findLoop search ps (processEvents found evs) (searched ++ [p])

/-- Embedding of `CalendarCleanup.find_perm_events`, with the provider's paginated search
for one pattern abstracted as `search`.  Second component: the patterns whose
search was actually issued. -/
def find_perm_events (search : String → Except String (List Event)) :
    List Event × List String :=
  findLoop search EVENT_PATTERNS [] []

/-- Embedding of `CalendarCleanup.delete_events`.  `deleteOp` is the provider's
delete-by-id call (`.error` = the call raised).  Returns
`(deleted_count, number of delete calls issued)`: in dry-run mode no call is
issued and every event is counted; in live mode the call is issued and the
count incremented only when it succeeds.  `deleteStep` is the loop body,
`delete_events` the fold from `deleted_count = 0`. -/
def deleteStep (dryRun : Bool) (deleteOp : String → Except String Unit)
    (acc : Nat × Nat) (ev : Event) : Nat × Nat :=
  if dryRun then (acc.1 + 1, acc.2)
  else
    match deleteOp ev.id with
    | .ok _ => (acc.1 + 1, acc.2 + 1)
    | .error _ => (acc.1, acc.2 + 1)

def delete_events (dryRun : Bool) (deleteOp : String → Except String Unit)
    (events : List Event) : Nat × Nat :=
  events.foldl (deleteStep dryRun deleteOp) (0, 0)

/-- Embedding of `CalendarCleanup.decrypt_token`.  `fernetDecrypt key ciphertext` abstracts
the `Fernet(key).decrypt(...)` body of the `try`; `none` means it raised.
Python truthiness: a `None` or empty token/key short-circuits to `None`. -/
def decrypt_token (fernetDecrypt : String → String → Option String)
    (encryption_key encrypted_token : Option String) : Option String :=
  match encrypted_token, encryption_key with
  | some c, some k => if c == "" || k == "" then none else fernetDecrypt k c
  | _, _ => none

/-- The `needs_refresh` computation inside `get_google_credentials`.
`parseIso` abstracts `datetime.fromisoformat` (`none` = it raised), `now` the
current time, both on a common timeline.  A falsy (`None` or empty) expiry,
a parse failure, or `now >= expiry` all yield `true`. -/
def needs_refresh (parseIso : String → Option Int) (now : Int)
    (token_expiry : Option String) : Bool :=
  match token_expiry with
  | none => true
  | some s =>
    if s == "" then true
    else
      match parseIso s with
      | none => true
      | some t => decide (t ≤ now)

/-- The scopes field of a user row: a JSON/text value, a proper list, or
missing (`user_data.get("google_scopes", [])` defaults to `[]`). -/
inductive ScopesField where
  | strVal (s : String)
  | listVal (l : List String)
  | missing
deriving DecidableEq, Repr

/-- The scope-parsing step of `get_google_credentials`: a string value is
JSON-parsed, and on parse failure wrapped as a single scope. -/
def parseScopes (jsonParse : String → Option (List String)) :
    ScopesField → List String
  | .missing => []
  | .listVal l => l
  | .strVal s =>
    match jsonParse s with
    | some l => l
    | none => [s]

/-- The `google.oauth2.credentials.Credentials` object, restricted to the
fields this script sets from user data. -/
structure Credentials where
  token : Option String
  refresh_token : String
  scopes : List String
deriving DecidableEq, Repr

/-- The projected `perm_users` row consumed by `get_google_credentials`. -/
structure GUserData where
  email : String
  google_refresh_token : Option String
  google_access_token : Option String
  google_token_expiry : Option String
  google_scopes : ScopesField
deriving Repr

/-- Embedding of `CalendarCleanup.get_google_credentials`.  `refreshOp` abstracts
`credentials.refresh(Request())`: `none` means it raised `RefreshError`
(the provider's refresh-failure signal), `some c` the refreshed credential.
A falsy decrypted refresh token returns `none` (`if not refresh_token`). -/
def get_google_credentials (fernetDecrypt : String → String → Option String)
    (jsonParse : String → Option (List String))
    (parseIso : String → Option Int) (now : Int)
    (refreshOp : Credentials → Option Credentials)
    (encryption_key : Option String) (u : GUserData) : Option Credentials :=
  match decrypt_token fernetDecrypt encryption_key u.google_refresh_token with
  | none => none
  | some rt =>
    if rt == "" then none
    else
      let creds : Credentials :=
        ⟨u.google_access_token, rt, parseScopes jsonParse u.google_scopes⟩
      if needs_refresh parseIso now u.google_token_expiry then refreshOp creds
      else some creds

/-- Outcome of the credential-resolution step as seen by `process_user`:
`get_google_credentials` returns `None`, returns a credential, or raises (an
exception other than `RefreshError` is not caught inside it). -/
inductive CredOutcome where
  | absent
  | present
  | exn (msg : String)
deriving DecidableEq, Repr

/-- One user's processing environment: the email used in log/error entries,
the credential outcome, the `build('calendar', ...)` outcome, and the
provider's search and delete operations for that user's calendar. -/
structure UserCtx where
  email : String
  cred : CredOutcome
  serviceOk : Except String Unit
  search : String → Except String (List Event)
  deleteOp : String → Except String Unit

/-- Embedding of `CalendarCleanup.process_user`.  `.error m` means an exception escaped
(from credential resolution, before any statistic was touched); `.ok (b, f, d)`
means it returned `b` after adding `f` to `total_events_found` and `d` to
`total_events_deleted`. -/
def process_user (dryRun : Bool) (u : UserCtx) :
    Except String (Bool × Nat × Nat) :=
  match u.cred with
  | .exn m => .error m
  | .absent => .ok (false, 0, 0)
  | .present =>
    match u.serviceOk with
    | .error _ => .ok (false, 0, 0)
    | .ok _ =>
      let events := (find_perm_events u.search).1
      if events.length == 0 then .ok (true, events.length, 0)
      else .ok (true, events.length, (delete_events dryRun u.deleteOp events).1)

/-- The `self.stats` dictionary. -/
structure Stats where
  users_processed : Nat
  users_successful : Nat
  users_failed : Nat
  total_events_found : Nat
  total_events_deleted : Nat
  errors : List String
deriving DecidableEq, Repr

/-- The statistics as initialised in `CalendarCleanup.__init__`. -/
def initStats : Stats := ⟨0, 0, 0, 0, 0, []⟩

/-- The per-user loop of `CalendarCleanup.run`: increment `users_processed`,
run `process_user` under a catch-all, and record success, a returned failure
(`credential/auth failure`), or a caught exception (`str(e)`). -/
def runLoop (dryRun : Bool) : List UserCtx → Stats → Stats
  | [], s => s
  | u :: rest, s =>
    let s1 : Stats := { s with users_processed := s.users_processed + 1 }
    let s2 : Stats :=
      match process_user dryRun u with
      | .ok (true, f, d) =>
        { s1 with users_successful := s1.users_successful + 1,
                  total_events_found := s1.total_events_found + f,
                  total_events_deleted := s1.total_events_deleted + d }
      | .ok (false, f, d) =>
        { s1 with users_failed := s1.users_failed + 1,
                  total_events_found := s1.total_events_found + f,
                  total_events_deleted := s1.total_events_deleted + d,
                  errors := s1.errors ++
                    ["User " ++ u.email ++ ": credential/auth failure"] }
      | .error m =>
        { s1 with users_failed := s1.users_failed + 1,
                  errors := s1.errors ++ ["User " ++ u.email ++ ": " ++ m] }
    runLoop dryRun rest s2

/-- Outcome of the persistence query in `run`: the `supabase` call raised, or
returned a (possibly empty) list of user rows. -/
inductive QueryOutcome where
  | qerror (msg : String)
  | qok (users : List UserCtx)

/-- The run environment: whether `initialize()` succeeded and what the
persistence query returned. -/
structure RunEnv where
  initOk : Bool
  query : QueryOutcome

/-- Embedding of `CalendarCleanup.run`: initialisation failure or a query failure aborts
with `False`; zero users succeeds immediately; otherwise the per-user loop
runs and the result is `users_failed == 0`.  Also returns the final stats. -/
def run (dryRun : Bool) (env : RunEnv) : Bool × Stats :=
  if env.initOk = false then (false, initStats)
  else
    match env.query with
    | .qerror _ => (false, initStats)
    | .qok users =>
      if users.isEmpty then (true, initStats)
      else
        let s := runLoop dryRun users initStats
        (s.users_failed == 0, s)

/-- Embedding of `main`: `sys.exit(0 if success else 1)`. -/
def mainExit (dryRun : Bool) (env : RunEnv) : Nat :=
  if (run dryRun env).1 then 0 else 1

/-! ### Concrete sample inputs used to instantiate the theorems -/

/-- A matching entry: summary starts with the first pattern. -/
def evA : Event := ⟨"a", "PWD Expiration: Acme", none⟩

/-- A non-matching entry. -/
def evB : Event := ⟨"b", "Unrelated", none⟩

/-- A matching entry for the third pattern. -/
def evC : Event := ⟨"c", "ETA 9089 Expiration: Acme", none⟩

/-- A search oracle: first pattern finds `evA`, the second raises, the third
would find `evC`, the rest find nothing. -/
def searchCx : String → Except String (List Event) := fun p =>
  if p == "PWD Expiration:" then .ok [evA]
  else if p == "ETA 9089 Filing:" then .error "rate limited"
  else if p == "ETA 9089 Expiration:" then .ok [evC]
  else .ok []

/-- A delete operation that always raises. -/
def deleteFail : String → Except String Unit := fun _ => .error "boom"

/-- A delete operation that always succeeds. -/
def deleteOk : String → Except String Unit := fun _ => .ok ()

/-- A Fernet decryptor that always raises. -/
def fdNone : String → String → Option String := fun _ _ => none

/-- A Fernet decryptor that decrypts everything to "rt". -/
def fdRt : String → String → Option String := fun _ _ => some "rt"

/-- A timestamp parser recognising a single literal as time `100`. -/
def parseIso0 : String → Option Int := fun s =>
  if s == "2020-01-01T00:00:00+00:00" then some 100 else none

/-- A refresh operation that always fails with `RefreshError`. -/
def refreshFail : Credentials → Option Credentials := fun _ => none

/-- A refresh operation that succeeds, installing a fresh access token. -/
def refreshOk : Credentials → Option Credentials := fun c =>
  some { c with token := some "fresh" }

/-- A JSON scope parser that never parses. -/
def jsonNone : String → Option (List String) := fun _ => none

/-- A sample user row with an expiry one hour in the past (`now = 3700`). -/
def uPast : GUserData :=
  ⟨"past@example.com", some "enc", some "tok",
    some "2020-01-01T00:00:00+00:00", .missing⟩

/-- A user environment whose credential resolution raises. -/
def uExn : UserCtx :=
  ⟨"x@example.com", .exn "boom", .ok (), fun _ => .ok [], deleteOk⟩

/-- A user environment that succeeds with no events. -/
def uOk : UserCtx :=
  ⟨"z@example.com", .present, .ok (), fun _ => .ok [], deleteOk⟩

/-- A run environment: initialisation succeeded, the query returned `uOk`. -/
def envOk : RunEnv := ⟨true, .qok [uOk]⟩

/-! ### Structural form of the filter-and-dedupe loop -/

/-- Structural recursion equivalent of `processEvents` (proved below):
the accumulator only contributes its already-seen identities. -/
def dedupAux (seen : List Event) : List Event → List Event
  | [] => []
  | e :: rest =>
    if matchesPattern e.summary && !(seen.any fun x => x.id == e.id) then
      e :: dedupAux (seen ++ [e]) rest
    else dedupAux seen rest

theorem processEvents_nil (seen : List Event) : processEvents seen [] = seen := rfl

theorem processEvents_cons (seen : List Event) (e : Event) (rest : List Event) :
    processEvents seen (e :: rest) =
      processEvents
        (if matchesPattern e.summary then
          (if seen.any (fun x => x.id == e.id) then seen else seen ++ [e])
         else seen) rest := rfl

theorem processEvents_eq_dedupAux (raw : List Event) :
    ∀ seen, processEvents seen raw = seen ++ dedupAux seen raw := by
  induction raw with
  | nil => intro seen; simp [processEvents_nil, dedupAux]
  | cons e rest ih =>
    intro seen
    rw [processEvents_cons]
    by_cases hm : matchesPattern e.summary
    · by_cases hs : seen.any (fun x => x.id == e.id)
      · simp only [hm, hs, if_true, dedupAux, Bool.not_true, Bool.and_false,
          if_false]
        exact ih seen
      · simp only [hm, hs, if_true, Bool.false_eq_true, if_false, dedupAux,
          Bool.not_false, Bool.and_true, List.append_assoc, List.singleton_append]
        rw [ih (seen ++ [e])]
        simp
    · simp only [hm, Bool.false_eq_true, if_false, dedupAux, Bool.false_and]
      exact ih seen

theorem dedupAux_matches (raw : List Event) :
    ∀ seen, ∀ e ∈ dedupAux seen raw, matchesPattern e.summary = true := by
  induction raw with
  | nil => intro seen e he; simp [dedupAux] at he
  | cons a rest ih =>
    intro seen e he
    rw [dedupAux] at he
    split at he
    · rename_i hcond
      rcases List.mem_cons.mp he with h | h
      · subst h
        exact (Bool.and_eq_true_iff.mp hcond).1
      · exact ih (seen ++ [a]) e h
    · exact ih seen e he

theorem dedupAux_sublist (raw : List Event) :
    ∀ seen, List.Sublist (dedupAux seen raw) raw := by
  induction raw with
  | nil => intro seen; simp [dedupAux]
  | cons a rest ih =>
    intro seen
    rw [dedupAux]
    split
    · exact List.Sublist.cons₂ a (ih (seen ++ [a]))
    · exact List.Sublist.cons a (ih seen)

theorem dedupAux_find (raw : List Event) :
    ∀ seen i,
      (dedupAux seen raw).find? (fun e => e.id == i) =
        if seen.any (fun x => x.id == i) then none
        else (raw.filter (fun e => matchesPattern e.summary && e.id == i)).head? := by
  induction raw with
  | nil => intro seen i; simp [dedupAux]
  | cons a rest ih =>
    intro seen i
    rw [dedupAux]
    split
    · rename_i hcond
      have hm : matchesPattern a.summary = true := (Bool.and_eq_true_iff.mp hcond).1
      have hs : (seen.any fun x => x.id == a.id) = false := by
        simpa using (Bool.and_eq_true_iff.mp hcond).2
      by_cases hai : a.id = i
      · subst hai
        simp [List.find?_cons, List.filter_cons, hm, hs]
      · have hne : (a.id == i) = false := beq_false_of_ne hai
        rw [List.find?_cons_of_neg _ (by simp [hne]), ih (seen ++ [a]) i]
        have hany : (seen ++ [a]).any (fun x => x.id == i)
            = seen.any (fun x => x.id == i) := by
          simp [List.any_append, hne]
        rw [hany]
        simp [List.filter_cons, hne]
    · rename_i hcond
      rw [ih seen i]
      by_cases hm : matchesPattern a.summary
      · have hs : (seen.any fun x => x.id == a.id) = true := by
          rcases Bool.and_eq_false_iff.mp (Bool.eq_false_iff.mpr hcond) with h | h
          · exact absurd hm (by simp [h])
          · simpa using h
        by_cases hai : a.id = i
        · subst hai
          simp [hs]
        · have hne : (a.id == i) = false := beq_false_of_ne hai
          simp [List.filter_cons, hne]
      · have hm' : matchesPattern a.summary = false := Bool.eq_false_iff.mpr hm
        simp [List.filter_cons, hm']

theorem dedupAux_fresh_nodup (raw : List Event) :
    ∀ seen,
      (∀ e ∈ dedupAux seen raw, seen.any (fun x => x.id == e.id) = false) ∧
      ((dedupAux seen raw).map Event.id).Nodup := by
  induction raw with
  | nil => intro seen; simp [dedupAux]
  | cons a rest ih =>
    intro seen
    rw [dedupAux]
    split
    · rename_i hcond
      have hs : seen.any (fun x => x.id == a.id) = false := by
        have := (Bool.and_eq_true_iff.mp hcond).2
        simpa using this
      constructor
      · intro e he
        rcases List.mem_cons.mp he with h | h
        · subst h; exact hs
        · have h1 := (ih (seen ++ [a])).1 e h
          rw [List.any_append] at h1
          exact (Bool.or_eq_false_iff.mp h1).1
      · rw [List.map_cons, List.nodup_cons]
        refine ⟨?_, (ih (seen ++ [a])).2⟩
        intro hmem
        rcases List.mem_map.mp hmem with ⟨y, hy, hyid⟩
        have h1 := (ih (seen ++ [a])).1 y hy
        rw [List.any_append] at h1
        have h2 := (Bool.or_eq_false_iff.mp h1).2
        simp [hyid] at h2
    · exact ih seen

/-- C2: for every sequence of raw entries returned by discovery, the
filter-and-dedupe step of `find_perm_events` keeps an entry iff its display
text starts (exact, case-sensitive character prefix) with one of the fixed
patterns, keeps at most one entry per identity, in first-seen order (the
output is a sublist of the input and, for each identity, the kept entry is the
first matching occurrence of that identity), regardless of how many times an
identity was returned. -/
theorem claim2_filter_dedupe (raw : List Event) :
    (∀ s, matchesPattern s = true ↔
      ∃ p ∈ EVENT_PATTERNS, List.IsPrefix p.data s.data) ∧
    (∀ e ∈ processEvents [] raw, matchesPattern e.summary = true) ∧
    List.Sublist (processEvents [] raw) raw ∧
    ((processEvents [] raw).map Event.id).Nodup ∧
    ∀ i, (processEvents [] raw).find? (fun e => e.id == i) =
        (raw.filter fun e => matchesPattern e.summary && e.id == i).head? := by
  have h : processEvents [] raw = dedupAux [] raw := by
    simpa using processEvents_eq_dedupAux raw []
  refine ⟨?_, ?_, ?_, ?_, ?_⟩
  · intro s
    simp [matchesPattern, strStartsWith, List.any_eq_true,
      List.isPrefixOf_iff_prefix]
  · intro e he
    rw [h] at he
    exact dedupAux_matches raw [] e he
  · rw [h]
    exact dedupAux_sublist raw []
  · rw [h]
    exact (dedupAux_fresh_nodup raw []).2
  · intro i
    rw [h, dedupAux_find raw [] i]
    simp

/-- Witness for C2 at the spec's scenario input: two copies of a matching
entry with identity "a" and one non-matching entry. -/
theorem claim2_witness :
    (processEvents [] [evA, evA, evB]).find? (fun e => e.id == "a") =
      ([evA, evA, evB].filter fun e =>
        matchesPattern e.summary && e.id == "a").head? ∧
    processEvents [] [evA, evA, evB] = [evA] :=
  ⟨(claim2_filter_dedupe [evA, evA, evB]).2.2.2.2 "a", by decide⟩

/-- C3: `decrypt_token` returns absent when either input is absent (or empty,
by Python truthiness) or when the decryption body raises; it is a total
function whose only outcomes are absent or the successful decryption, so no
exception ever reaches the caller. -/
theorem claim3_decrypt_total (fd : String → String → Option String)
    (key ct : Option String) :
    ((ct = none ∨ key = none) → decrypt_token fd key ct = none) ∧
    (∀ k c, key = some k → ct = some c → fd k c = none →
      decrypt_token fd key ct = none) ∧
    (decrypt_token fd key ct = none ∨
      ∃ k c s, key = some k ∧ ct = some c ∧ fd k c = some s ∧
        decrypt_token fd key ct = some s) := by
  refine ⟨?_, ?_, ?_⟩
  · rintro (rfl | rfl)
    · cases key <;> rfl
    · cases ct <;> rfl
  · rintro k c rfl rfl hf
    simp [decrypt_token, hf]
  · cases ct with
    | none => exact Or.inl (by cases key <;> rfl)
    | some c =>
      cases key with
      | none => exact Or.inl rfl
      | some k =>
        by_cases hz : (c == "" || k == "") = true
        · exact Or.inl (by simp [decrypt_token, hz])
        · cases hf : fd k c with
          | none => exact Or.inl (by simp [decrypt_token, hz, hf])
          | some s =>
            exact Or.inr ⟨k, c, s, rfl, rfl, hf, by simp [decrypt_token, hz, hf]⟩

/-- Witness for C3: an absent key, and a decryption body that raises, both
yield absent. -/
theorem claim3_witness :
    decrypt_token fdNone none (some "x") = none ∧
    decrypt_token fdNone (some "k") (some "x") = none :=
  ⟨(claim3_decrypt_total fdNone none (some "x")).1 (Or.inr rfl),
   (claim3_decrypt_total fdNone (some "k") (some "x")).2.1 "k" "x" rfl rfl rfl⟩

/-! ### Fold lemmas for `delete_events` -/

theorem deleteFold_dry (op : String → Except String Unit) :
    ∀ (evs : List Event) (p : Nat × Nat),
      List.foldl (deleteStep true op) p evs = (p.1 + evs.length, p.2) := by
  intro evs
  induction evs with
  | nil => intro p; simp
  | cons e rest ih =>
    intro p
    rw [List.foldl_cons, ih]
    simp [deleteStep]
    omega

theorem deleteFold_live_ok (op : String → Except String Unit) :
    ∀ (evs : List Event) (p : Nat × Nat), (∀ e ∈ evs, op e.id = .ok ()) →
      List.foldl (deleteStep false op) p evs =
        (p.1 + evs.length, p.2 + evs.length) := by
  intro evs
  induction evs with
  | nil => intro p _; simp
  | cons e rest ih =>
    intro p hok
    rw [List.foldl_cons, ih _ (fun x hx => hok x (List.mem_cons_of_mem e hx))]
    have he : op e.id = .ok () := hok e (List.mem_cons_self e rest)
    simp [deleteStep, he]
    omega

theorem deleteFold_le (dr : Bool) (op : String → Except String Unit) :
    ∀ (evs : List Event) (p : Nat × Nat),
      (List.foldl (deleteStep dr op) p evs).1 ≤ p.1 + evs.length := by
  intro evs
  induction evs with
  | nil => intro p; simp
  | cons e rest ih =>
    intro p
    rw [List.foldl_cons]
    have hstep : (deleteStep dr op p e).1 ≤ p.1 + 1 := by
      cases dr
      · cases h : op e.id <;> simp [deleteStep, h]
      · simp [deleteStep]
    calc (List.foldl (deleteStep dr op) (deleteStep dr op p e) rest).1
        ≤ (deleteStep dr op p e).1 + rest.length := ih (deleteStep dr op p e)
      _ ≤ p.1 + 1 + rest.length := by omega
      _ = p.1 + (e :: rest).length := by simp [List.length_cons]; omega

/-- C4 counterexample: over identical discovery results (one matching event)
with a provider whose delete call raises, a live execution records 0 deleted
while a dry-run execution records 1, so the statistics of dry-run and live
executions are not identical in general. -/
theorem claim4_counterexample :
    (delete_events true deleteFail [evA]).1 = 1 ∧
    (delete_events false deleteFail [evA]).1 = 0 := by
  exact ⟨rfl, rfl⟩

/-- C4 (amended): over identical discovery results, a dry-run execution issues
no deletion call and counts every surviving entry as a would-delete, and its
statistics agree with a live execution provided every live deletion call
succeeds (the dry-run count equals the deleted count achievable in live
mode). -/
theorem claim4_dry_live_parity (op : String → Except String Unit)
    (evs : List Event) :
    (delete_events true op evs).2 = 0 ∧
    (delete_events true op evs).1 = evs.length ∧
    ((∀ e ∈ evs, op e.id = .ok ()) →
      (delete_events false op evs).1 = (delete_events true op evs).1) := by
  refine ⟨?_, ?_, ?_⟩
  · rw [delete_events, deleteFold_dry op evs (0, 0)]
  · rw [delete_events, deleteFold_dry op evs (0, 0)]
    simp
  · intro hok
    rw [delete_events, delete_events, deleteFold_dry op evs (0, 0),
      deleteFold_live_ok op evs (0, 0) hok]

/-- Witness for C4 at a one-event input with an always-succeeding delete. -/
theorem claim4_witness :
    (delete_events false deleteOk [evA]).1 = (delete_events true deleteOk [evA]).1 :=
  (claim4_dry_live_parity deleteOk [evA]).2.2 (fun _ _ => rfl)

/-! ### The pattern loop of `find_perm_events` -/

theorem findLoop_ok_segment (search : String → Except String (List Event)) :
    ∀ (pre rest : List String) (found : List Event) (searched : List String),
      (∀ q ∈ pre, ∃ l, search q = .ok l) →
      findLoop search (pre ++ rest) found searched =
        findLoop search rest
          (processEvents found (pre.flatMap fun q => okResult (search q)))
          (searched ++ pre) := by
  intro pre
  induction pre with
  | nil => intro rest found searched _; simp [processEvents]
  | cons q pre' ih =>
    intro rest found searched hok
    obtain ⟨l, hl⟩ := hok q (List.mem_cons_self q pre')
    rw [List.cons_append, findLoop, hl]
    show findLoop search (pre' ++ rest) (processEvents found l) (searched ++ [q]) = _
    rw [ih rest (processEvents found l) (searched ++ [q])
      (fun x hx => hok x (List.mem_cons_of_mem q hx))]
    have hflat : (q :: pre').flatMap (fun r => okResult (search r)) =
        l ++ pre'.flatMap fun r => okResult (search r) := by
      simp [List.flatMap_cons, hl, okResult]
    rw [hflat]
    have happ : processEvents found (l ++ pre'.flatMap fun r => okResult (search r)) =
        processEvents (processEvents found l)
          (pre'.flatMap fun r => okResult (search r)) := by
      simp [processEvents, List.foldl_append]
    rw [happ, List.append_assoc]
    simp

/-- C5 counterexample: with a provider that finds `evA` for the first pattern,
raises for the second, and would find `evC` for the third, `find_perm_events`
stops after the second pattern: the third pattern is never searched and `evC`
is not returned, so an error for one pattern is not confined to that pattern
alone. -/
theorem claim5_counterexample :
    (find_perm_events searchCx).2 = ["PWD Expiration:", "ETA 9089 Filing:"] ∧
    evC ∉ (find_perm_events searchCx).1 ∧
    okResult (searchCx "ETA 9089 Expiration:") = [evC] := by
  refine ⟨by decide, by decide, by decide⟩

/-- C5 (amended): the `try` in `find_perm_events` wraps the whole pattern
loop, so a provider error while listing for one pattern is caught at the
discovery level: the entries accumulated from the earlier patterns are
returned (the user is not aborted and proceeds to deletion), but the
remaining patterns of that user are not searched. -/
theorem claim5_discovery_error_catch
    (search : String → Except String (List Event))
    (pre : List String) (p : String) (post : List String) (m : String)
    (hpats : EVENT_PATTERNS = pre ++ p :: post)
    (hpre : ∀ q ∈ pre, ∃ l, search q = .ok l)
    (herr : search p = .error m) :
    find_perm_events search =
      (processEvents [] (pre.flatMap fun q => okResult (search q)),
       pre ++ [p]) := by
  rw [find_perm_events, hpats,
    findLoop_ok_segment search pre (p :: post) [] [] hpre, findLoop, herr]
  simp

/-- Witness for C5: the concrete provider `searchCx` errors on the second
pattern; discovery returns the entries of the first pattern and stops. -/
theorem claim5_witness :
    find_perm_events searchCx =
      (processEvents []
        (["PWD Expiration:"].flatMap fun q => okResult (searchCx q)),
       ["PWD Expiration:"] ++ ["ETA 9089 Filing:"]) :=
  claim5_discovery_error_catch searchCx ["PWD Expiration:"] "ETA 9089 Filing:"
    ["ETA 9089 Expiration:", "Ready to File:", "Recruitment Expires:",
     "I-140 Deadline:", "RFI Response Due:", "RFE Response Due:"]
    "rate limited" rfl
    (by intro q hq; rw [List.mem_singleton.mp hq]; exact ⟨[evA], rfl⟩)
    rfl

/-- C6: the needs-refresh decision is true iff no expiry is recorded (absent
or empty, by Python truthiness), or the expiry fails to parse, or the current
time is at/after the recorded expiry; and whenever the decision is true for a
user with a usable refresh token, `get_google_credentials` invokes the
provider's refresh operation and returns its result, so an expired credential
is refreshed before use. -/
theorem claim6_needs_refresh (fd : String → String → Option String)
    (jsonParse : String → Option (List String))
    (parseIso : String → Option Int) (now : Int)
    (refreshOp : Credentials → Option Credentials)
    (ekey : Option String) (u : GUserData) :
    (needs_refresh parseIso now u.google_token_expiry = true ↔
      ∀ s, u.google_token_expiry = some s →
        s = "" ∨ parseIso s = none ∨ ∃ t, parseIso s = some t ∧ t ≤ now) ∧
    (∀ rt, decrypt_token fd ekey u.google_refresh_token = some rt → rt ≠ "" →
      needs_refresh parseIso now u.google_token_expiry = true →
      get_google_credentials fd jsonParse parseIso now refreshOp ekey u =
        refreshOp
          ⟨u.google_access_token, rt, parseScopes jsonParse u.google_scopes⟩) := by
  constructor
  · cases hte : u.google_token_expiry with
    | none => simp [needs_refresh]
    | some s =>
      by_cases hz : s = ""
      · subst hz
        simp [needs_refresh]
      · have hz' : (s == "") = false := beq_false_of_ne hz
        cases hp : parseIso s with
        | none => simp [needs_refresh, hz', hp, hz]
        | some t => simp [needs_refresh, hz', hp, hz]
  · intro rt hdec hne hnr
    rw [get_google_credentials, hdec]
    have hne' : (rt == "") = false := beq_false_of_ne hne
    simp [hne', hnr]

/-- Witness for C6 at the spec's scenario: an expiry in the past (`t = 100`,
`now = 3700`) makes needs-refresh true and routes credential resolution
through the refresh operation. -/
theorem claim6_witness :
    needs_refresh parseIso0 3700 uPast.google_token_expiry = true ∧
    get_google_credentials fdRt jsonNone parseIso0 3700 refreshOk (some "k") uPast =
      refreshOk ⟨uPast.google_access_token, "rt",
        parseScopes jsonNone uPast.google_scopes⟩ := by
  refine ⟨by decide, ?_⟩
  exact (claim6_needs_refresh fdRt jsonNone parseIso0 3700 refreshOk
    (some "k") uPast).2 "rt" (by decide) (by decide) (by decide)

/-- C8: when refresh is needed and the provider's refresh operation fails
(`RefreshError`), `get_google_credentials` returns absent instead of raising,
exactly as it does when decryption of the refresh token fails. -/
theorem claim8_refresh_failure (fd : String → String → Option String)
    (jsonParse : String → Option (List String))
    (parseIso : String → Option Int) (now : Int)
    (refreshOp : Credentials → Option Credentials)
    (ekey : Option String) (u : GUserData) :
    (∀ rt, decrypt_token fd ekey u.google_refresh_token = some rt → rt ≠ "" →
      needs_refresh parseIso now u.google_token_expiry = true →
      refreshOp
        ⟨u.google_access_token, rt, parseScopes jsonParse u.google_scopes⟩ = none →
      get_google_credentials fd jsonParse parseIso now refreshOp ekey u = none) ∧
    (decrypt_token fd ekey u.google_refresh_token = none →
      get_google_credentials fd jsonParse parseIso now refreshOp ekey u = none) := by
  constructor
  · intro rt hdec hne hnr hfail
    rw [get_google_credentials, hdec]
    have hne' : (rt == "") = false := beq_false_of_ne hne
    simp [hne', hnr, hfail]
  · intro hdec
    rw [get_google_credentials, hdec]

/-- Witness for C8: the expired sample user with an always-failing refresh
operation resolves to absent. -/
theorem claim8_witness :
    get_google_credentials fdRt jsonNone parseIso0 3700 refreshFail
      (some "k") uPast = none :=
  (claim8_refresh_failure fdRt jsonNone parseIso0 3700 refreshFail
    (some "k") uPast).1 "rt" (by decide) (by decide) (by decide) rfl

/-! ### The per-user loop of `run` -/

theorem runLoop_processed (dryRun : Bool) :
    ∀ (l : List UserCtx) (s : Stats),
      (runLoop dryRun l s).users_processed = s.users_processed + l.length := by
  intro l
  induction l with
  | nil => intro s; simp [runLoop]
  | cons u rest ih =>
    intro s
    cases h : process_user dryRun u with
    | error m =>
      simp only [runLoop, h]
      rw [ih]
      simp [List.length_cons]
      omega
    | ok r =>
      obtain ⟨b, f, d⟩ := r
      cases b <;>
        · simp only [runLoop, h]
          rw [ih]
          simp [List.length_cons]
          omega

/-- C1: when processing one user raises an unanticipated exception, the
per-user loop of `run` catches it, increments `users_failed`, appends an error
entry made of that user's email and the error text, and continues the loop on
every subsequent user (so all users of the list are processed). -/
theorem claim1_run_catches_user_exception (dryRun : Bool) (u : UserCtx)
    (post : List UserCtx) (s : Stats) (m : String)
    (h : process_user dryRun u = .error m) :
    runLoop dryRun (u :: post) s =
      runLoop dryRun post
        { s with users_processed := s.users_processed + 1,
                 users_failed := s.users_failed + 1,
                 errors := s.errors ++ ["User " ++ u.email ++ ": " ++ m] } ∧
    (runLoop dryRun (u :: post) s).users_processed =
      s.users_processed + (u :: post).length := by
  constructor
  · simp only [runLoop, h]
  · exact runLoop_processed dryRun (u :: post) s

/-- Witness for C1: a two-user list whose first user's processing raises
`boom`; the loop records the failure with the email and error text and still
processes the second user. -/
theorem claim1_witness :
    runLoop false [uExn, uOk] initStats =
      runLoop false [uOk]
        { initStats with
            users_processed := initStats.users_processed + 1,
            users_failed := initStats.users_failed + 1,
            errors := initStats.errors ++
              ["User " ++ uExn.email ++ ": " ++ "boom"] } ∧
    (runLoop false [uExn, uOk] initStats).users_processed =
      initStats.users_processed + ([uExn, uOk] : List UserCtx).length :=
  claim1_run_catches_user_exception false uExn [uOk] initStats "boom" rfl

/-- C9: a run whose persistence query returns zero users succeeds immediately
with every statistics counter at zero and an empty error list. -/
theorem claim9_zero_users (dryRun : Bool) :
    run dryRun ⟨true, .qok []⟩ = (true, ⟨0, 0, 0, 0, 0, []⟩) := rfl

/-- C7: once initialization and the persistence query have succeeded, the
run's result is success exactly when `users_failed` is zero; and the process
exit status is 0 exactly when initialization succeeded, the query succeeded
and no per-user failure occurred, 1 otherwise. -/
theorem claim7_success_and_exit (dryRun : Bool) (env : RunEnv) :
    (∀ users, env.initOk = true → env.query = .qok users →
      ((run dryRun env).1 = true ↔ (run dryRun env).2.users_failed = 0)) ∧
    (mainExit dryRun env = 0 ↔
      (env.initOk = true ∧ ∃ users, env.query = .qok users ∧
        (run dryRun env).2.users_failed = 0)) ∧
    (mainExit dryRun env = 0 ∨ mainExit dryRun env = 1) := by
  obtain ⟨io, q⟩ := env
  cases io
  · refine ⟨?_, ?_, ?_⟩
    · intro users h1 _
      exact absurd h1 (by simp)
    · simp [mainExit, run]
    · simp [mainExit, run]
  · cases q with
    | qerror m =>
      refine ⟨?_, ?_, ?_⟩
      · intro users _ h2
        exact absurd h2 (by simp)
      · simp [mainExit, run]
      · simp [mainExit, run]
    | qok users =>
      cases users with
      | nil =>
        refine ⟨?_, ?_, ?_⟩
        · intro _ _ _
          simp [run, initStats]
        · simp [mainExit, run, initStats]
        · simp [mainExit, run]
      | cons v vs =>
        have hrun : run dryRun ⟨true, QueryOutcome.qok (v :: vs)⟩ =
            ((runLoop dryRun (v :: vs) initStats).users_failed == 0,
             runLoop dryRun (v :: vs) initStats) := by
          simp [run]
        refine ⟨?_, ?_, ?_⟩
        · intro _ _ _
          rw [hrun]
          simp
        · rw [mainExit, hrun]
          by_cases hF : (runLoop dryRun (v :: vs) initStats).users_failed = 0
          · simp [hF, hrun]
          · simp [hF, hrun]
        · simp only [mainExit]
          by_cases hb : (run dryRun ⟨true, .qok (v :: vs)⟩).1
          · left; simp [hb]
          · right; simp [hb]

/-- Witness for C7: the sample environment with one succeeding user. -/
theorem claim7_witness :
    ((run false envOk).1 = true ↔ (run false envOk).2.users_failed = 0) ∧
    (mainExit false envOk = 0 ↔
      (envOk.initOk = true ∧ ∃ users, envOk.query = .qok users ∧
        (run false envOk).2.users_failed = 0)) :=
  ⟨(claim7_success_and_exit false envOk).1 [uOk] rfl rfl,
   (claim7_success_and_exit false envOk).2.1⟩

/-! ### Statistics invariants -/

theorem process_user_deleted_le (dryRun : Bool) (u : UserCtx)
    (b : Bool) (f d : Nat) (h : process_user dryRun u = .ok (b, f, d)) :
    d ≤ f := by
  rw [process_user] at h
  cases hc : u.cred with
  | exn m => rw [hc] at h; exact absurd h (by simp)
  | absent =>
    rw [hc] at h
    injection h with h'
    simp only [Prod.mk.injEq] at h'
    omega
  | present =>
    rw [hc] at h
    cases hs : u.serviceOk with
    | error e =>
      rw [hs] at h
      injection h with h'
      simp only [Prod.mk.injEq] at h'
      omega
    | ok _ =>
      rw [hs] at h
      by_cases hz : ((find_perm_events u.search).1.length == 0) = true
      · rw [if_pos hz] at h
        injection h with h'
        simp only [Prod.mk.injEq] at h'
        omega
      · rw [if_neg hz] at h
        injection h with h'
        simp only [Prod.mk.injEq] at h'
        have hle : (delete_events dryRun u.deleteOp (find_perm_events u.search).1).1
            ≤ (find_perm_events u.search).1.length := by
          have := deleteFold_le dryRun u.deleteOp (find_perm_events u.search).1 (0, 0)
          simpa [delete_events] using this
        omega

theorem runLoop_inv (dryRun : Bool) :
    ∀ (l : List UserCtx) (s : Stats),
      s.users_processed = s.users_successful + s.users_failed →
      s.total_events_deleted ≤ s.total_events_found →
      (runLoop dryRun l s).users_processed =
          (runLoop dryRun l s).users_successful +
          (runLoop dryRun l s).users_failed ∧
      (runLoop dryRun l s).total_events_deleted ≤
          (runLoop dryRun l s).total_events_found := by
  intro l
  induction l with
  | nil => intro s h1 h2; exact ⟨h1, h2⟩
  | cons u rest ih =>
    intro s h1 h2
    cases h : process_user dryRun u with
    | error m =>
      simp only [runLoop, h]
      exact ih _ (by simp; omega) (by simp; omega)
    | ok r =>
      obtain ⟨b, f, d⟩ := r
      have hdf : d ≤ f := process_user_deleted_le dryRun u b f d h
      cases b
      · simp only [runLoop, h]
        exact ih _ (by simp; omega) (by simp; omega)
      · simp only [runLoop, h]
        exact ih _ (by simp; omega) (by simp; omega)

/-- C10: after any number of users of the per-user loop (starting from the
initial statistics), `users_processed` equals `users_successful` plus
`users_failed`, and `total_events_deleted` is at most `total_events_found`. -/
theorem claim10_stats_invariant (dryRun : Bool) (users : List UserCtx)
    (k : Nat) :
    (runLoop dryRun (users.take k) initStats).users_processed =
        (runLoop dryRun (users.take k) initStats).users_successful +
        (runLoop dryRun (users.take k) initStats).users_failed ∧
    (runLoop dryRun (users.take k) initStats).total_events_deleted ≤
        (runLoop dryRun (users.take k) initStats).total_events_found :=
  runLoop_inv dryRun (users.take k) initStats rfl (Nat.le_refl 0)

end Cleanup
